import Mathlib

/-!
Verification of the Falco spark pipeline driver
(`EMR/Falco/source/spark_runner/run_pipeline_multiple_files.py`).

The Python program is shallowly embedded: its pure string processing is
translated to Lean functions over `List Char` / `String`; Python exceptions
(`KeyError`, `IndexError`, `ValueError`) are modelled with `Except PyError`;
the effect of `os.mkdir` / `shutil.rmtree` on the scratch directory is
modelled by explicit passing of the list of existing directories.  External
processes (STAR, HISAT2, featureCounts, HTSeq, picard) are not modelled:
only the text processing the program performs on their outputs is, and in
the orchestration model the outcome of each external step is a parameter.
-/

namespace Falco

/-- Python exception kinds raised by the unchecked operations the program
uses: `dict[key]` raises `KeyError`, `list[i]` raises `IndexError`,
`int(...)`, tuple unpacking and `str.format` argument exhaustion raise
`ValueError`/`IndexError`. -/
inductive PyError where
  | keyError
  | indexError
  | valueError
  deriving DecidableEq

/-! ### Python string primitives (models of the `str` methods the program uses) -/

/-- The characters Python's `str.strip()` (no argument) removes. -/
def isPySpace (c : Char) : Bool :=
  c == ' ' || c == '\t' || c == '\n' || c == '\r' || c == '\x0b' || c == '\x0c'

/-- Python `s.strip()`: whitespace removed from both ends. -/
def pyStripWs (l : List Char) : List Char :=
  ((l.dropWhile isPySpace).reverse.dropWhile isPySpace).reverse

/-- Python `s.strip(chars)`: any of the given characters removed from both ends,
used by the program as `parts[0].strip("| ")`. -/
def pyStripChars (cs : List Char) (l : List Char) : List Char :=
  ((l.dropWhile (fun c => cs.contains c)).reverse.dropWhile (fun c => cs.contains c)).reverse

/-- Python `s.rstrip(c)` for a single character, used as `file_name.rstrip("/")`. -/
def rstripChar (c : Char) (l : List Char) : List Char :=
  (l.reverse.dropWhile (fun x => x == c)).reverse

/-- Python `s.split(sep)` for a one-character separator, generalized to a
predicate: splits at every matching character and keeps empty pieces, so the
result is never the empty list (`"".split(sep) == [""]`). -/
def splitOnPred (p : Char → Bool) : List Char → List (List Char)
  | [] => [[]]
  | x :: xs =>
    match splitOnPred p xs with
    | [] => [[]]
    | h :: t => if p x then [] :: h :: t else (x :: h) :: t

/-- Python `s.split(c)` for the one-character separators the program uses
(`"\t"`, `"\n"`, `"/"`, `"."`). -/
def splitOnChar (c : Char) (l : List Char) : List (List Char) :=
  splitOnPred (fun x => x == c) l

/-- Python `s.split()` (no separator): split on whitespace runs, no empty
tokens. -/
def pyWsTokens (l : List Char) : List (List Char) :=
  (splitOnPred isPySpace l).filter (fun t => !t.isEmpty)

/-- Numeric value of a digit string (valuation used by `int(...)` on digits). -/
def digitsVal (l : List Char) : Nat :=
  l.foldl (fun a c => a * 10 + (c.toNat - 48)) 0

/-- Python `int(s)`: optional sign and a nonempty run of digits after
stripping whitespace; `none` models the `ValueError` raised otherwise. -/
def pyIntL (l : List Char) : Option Int :=
  match pyStripWs l with
  | '+' :: r => if !r.isEmpty && r.all Char.isDigit then some (digitsVal r) else none
  | '-' :: r => if !r.isEmpty && r.all Char.isDigit then some (-(digitsVal r : Int)) else none
  | r => if !r.isEmpty && r.all Char.isDigit then some (digitsVal r) else none

/-- `int(...)` on a `String`. -/
def pyInt (s : String) : Option Int :=
  pyIntL s.data

/-- Python `s.lower()` (the program only lowercases ASCII metric names). -/
def lowerL (l : List Char) : List Char :=
  l.map Char.toLower

/-- Python `s.replace(" ", "_")` (single-character pattern). -/
def underscoreSpaces (l : List Char) : List Char :=
  l.map (fun c => if c == ' ' then '_' else c)

/-- Largest index `i ≤ k` such that `sub` occurs in `s` at position `i`
(scanning downward from `k`); the search Python's `rsplit(sub, 1)` performs. -/
def lastOccurFrom (sub s : List Char) : Nat → Option Nat
  | 0 => if sub.isPrefixOf s then some 0 else none
  | k + 1 =>
    if sub.isPrefixOf (s.drop (k + 1)) then some (k + 1) else lastOccurFrom sub s k

/-- Python `s.rsplit(sub, 1)[0]`: everything before the last occurrence of
`sub`, or all of `s` when `sub` does not occur. -/
def rsplitOnceBefore (sub s : List Char) : List Char :=
  match lastOccurFrom sub s s.length with
  | none => s
  | some i => s.take i

/-! ### Constants of the program -/

def APPLICATION_FOLDER : String := "/mnt/app"

def GENOME_REFERENCES_FOLDER : String := "/mnt/ref"

def TEMP_OUTPUT_FOLDER : String := "/mnt/output"

/-- `star_collected_metrics` (lines 18-21): the fixed lowercase allow-list of
STAR log metrics. -/
def star_collected_metrics : List String :=
  ["number of input reads", "uniquely mapped reads number", "number of splices: total",
   "number of splices: annotated (sjdb)", "number of splices: gt/ag", "number of splices: gc/ag",
   "number of splices: at/ac", "number of splices: non-canonical",
   "number of reads mapped to multiple loci", "number of reads mapped to too many loci"]

/-- `picard_collected_metrics` (lines 23-25): the fixed allow-list of picard
metric keys. -/
def picard_collected_metrics : List String :=
  ["pf_bases", "pf_aligned_bases", "ribosomal_bases", "coding_bases", "utr_bases",
   "intronic_bases", "intergenic_bases", "ignored_reads", "correct_strand_reads",
   "incorrect_strand_reads"]

/-! ### SampleId derivation (lines 355-357 of `alignment_count_step`) -/

/-- Lines 356-357 on `List Char`:
`prefix = file_name.rstrip("/").split("/")[-1].split(".")[0]` and
`sample_name = prefix.rsplit("_part", 1)[0]`. -/
def sampleIdL (file_name : List Char) : List Char :=
  let stripped := rstripChar '/' file_name
  let base := (splitOnChar '/' stripped).getLastD []
  let pre := (splitOnChar '.' base).headD []
  rsplitOnceBefore "_part".data pre

/-- SampleId as a function of the partition (file) name. -/
def sampleId (file_name : String) : String :=
  String.mk (sampleIdL file_name.data)

/-! ### Aggregation operators (lines 315-342) -/

/-- `sum_gene_counts` (lines 315-316): the `reduceByKey` combiner. -/
def sum_gene_counts (cumulative_count current_count : Int) : Int :=
  cumulative_count + current_count

/-- A tree of combiner applications: the engine may reduce the values of one
key in any order and grouping; a tree records one such grouping. -/
inductive ReduceTree where
  | leaf (v : Int)
  | node (l r : ReduceTree)

/-- The multiset (list) of values at the leaves of a reduction tree. -/
def ReduceTree.leaves : ReduceTree → List Int
  | .leaf v => [v]
  | .node l r => l.leaves ++ r.leaves

/-- The value the engine obtains by applying `sum_gene_counts` along the tree. -/
def ReduceTree.reduceVal : ReduceTree → Int
  | .leaf v => v
  | .node l r => sum_gene_counts l.reduceVal r.reduceVal

/-- `set_gene_id_as_key` (lines 319-328): re-keys `(file_name\tgene, count)`
to `(gene, [(file_name, count)])`; the Python 2-tuple unpacking of
`key.split("\t")` raises `ValueError` unless there are exactly two parts. -/
def set_gene_id_as_key (keyval : String × Int) :
    Except PyError (String × List (String × Int)) :=
  match (splitOnChar '\t' keyval.1.data).map String.mk with
  | [file_group, gene_id] => .ok (gene_id, [(file_group, keyval.2)])
  | _ => .error .valueError

/-- `merge_count_by_gene_id` (lines 331-332): list concatenation. -/
def merge_count_by_gene_id (file_count_one file_count_two : List (String × Int)) :
    List (String × Int) :=
  file_count_one ++ file_count_two

/-- One matrix cell of the row built by `process_count_by_gene_id`
(lines 335-338): `pd.DataFrame({k: v for k, v in counts})` keeps, per column
name, the value of the last pair with that name. -/
def dictGetLast (counts : List (String × Int)) (sample : String) : Option Int :=
  (counts.reverse.find? (fun p => p.1 == sample)).map (fun p => p.2)

/-! ### ReadSplitter: `split_interleaved_file` (lines 36-84) -/

/-- `line.strip().split("\t")` — the tab fields of a line. -/
def fieldsOf (line : List Char) : List (List Char) :=
  splitOnChar '\t' (pyStripWs line)

/-- What the paired branch writes to the mate-1 file for one 8-field line:
`"\n".join(parts[:4]) + "\n"` (lines 71, 73). -/
def mate1Rec (line : List Char) : List Char :=
  List.intercalate ['\n'] ((fieldsOf line).take 4) ++ ['\n']

/-- What the paired branch writes to the mate-2 file for one 8-field line:
`"\n".join(parts[4:]) + "\n"` (lines 72, 74). -/
def mate2Rec (line : List Char) : List Char :=
  List.intercalate ['\n'] ((fieldsOf line).drop 4) ++ ['\n']

/-- What the single-end branch writes for one line:
`line.strip().replace("\t", "\n") + "\n"` (line 76). -/
def seLineOut (line : List Char) : List Char :=
  (pyStripWs line).map (fun c => if c == '\t' then '\n' else c) ++ ['\n']

/-- The loop state of `split_interleaved_file`: the paired flag and the
contents written so far to the two output files. -/
structure SplitState where
  paired : Bool
  out1 : List Char
  out2 : List Char

/-- One iteration of the `for line in file_content.strip().split("\n")` loop
(lines 57-78), at loop counter `count`. -/
def splitStep (count : Nat) (line : List Char) (st : SplitState) : SplitState :=
  let st1 := if count == 0 && (fieldsOf line).length == 8 then { st with paired := true } else st
  if st1.paired then
    if (fieldsOf line).length == 8 then
      { st1 with out1 := st1.out1 ++ mate1Rec line, out2 := st1.out2 ++ mate2Rec line }
    else st1
  else
    { st1 with out1 := st1.out1 ++ seLineOut line }

/-- The whole loop, threading the counter. -/
def splitFold : Nat → List (List Char) → SplitState → SplitState
  | _, [], st => st
  | n, l :: ls, st => splitFold (n + 1) ls (splitStep n l st)

/-- Result of `split_interleaved_file`: the returned file-name list and
paired flag, and the final contents of the created files (`file2 = none`
when no mate-2 file was created). -/
structure SplitResult where
  output_file_names : List String
  paired_reads : Bool
  file1 : String
  file2 : Option String

/-- `split_interleaved_file` (lines 36-84).  The mate-1 file is always
created; the mate-2 file is created exactly when the first line of the
stripped content has 8 tab fields. -/
def split_interleaved_file (file_pre file_content output_dir : String) : SplitResult :=
  let fp := output_dir ++ "/" ++ file_pre
  let lines := splitOnChar '\n' (pyStripWs file_content.data)
  let st := splitFold 0 lines ⟨false, [], []⟩
  { output_file_names :=
      if st.paired then [fp ++ "_1.fq", fp ++ "_2.fq"] else [fp ++ "_1.fq"],
    paired_reads := st.paired,
    file1 := String.mk st.out1,
    file2 := if st.paired then some (String.mk st.out2) else none }

/-- The tab-field count of the first line of the stripped content — the
quantity line 59 tests against 8. -/
def firstLineFieldCount (file_content : String) : Nat :=
  (fieldsOf ((splitOnChar '\n' (pyStripWs file_content.data)).headD [])).length

/-- The lines the paired branch keeps (exactly 8 tab fields; line 68 skips
the rest). -/
def keptLines (file_content : String) : List (List Char) :=
  (splitOnChar '\n' (pyStripWs file_content.data)).filter
    (fun l => (fieldsOf l).length == 8)

/-- Number of non-empty lines of a written file (a FASTQ read record occupies
four non-empty lines, so zero non-empty lines means zero records). -/
def nonemptyLineCount (s : String) : Nat :=
  ((splitOnChar '\n' s.data).filter (fun l => !l.isEmpty)).length

/-! ### STAR log parsing (lines 119-128 of `align_reads_star`) -/

/-- The `for line in aligner_qc` loop of `align_reads_star` (lines 121-128)
over the lines of `Log.final.out`: tab-split each line, skip lines with
fewer than two parts, strip the key of `"| "`, match it lowercased against
`star_collected_metrics`, and emit
`(sample_name + "\t" + "QC_STAR_" + key.replace(" ", "_"), int(value))`. -/
def parse_star_log (sample_name : String) : List String → Except PyError (List (String × Int))
  | [] => .ok []
  | line :: rest =>
    match splitOnChar '\t' (pyStripWs line.data) with
    | p0 :: p1 :: _ =>
      let aligner_metric_name := pyStripChars "| ".data p0
      let aligner_metric_value := pyStripWs p1
      if star_collected_metrics.contains (String.mk (lowerL aligner_metric_name)) then
        match pyIntL aligner_metric_value with
        | none => .error .valueError
        | some v =>
          (parse_star_log sample_name rest).map
            (fun tl =>
              (sample_name ++ "\t" ++ "QC_STAR_" ++ String.mk (underscoreSpaces aligner_metric_name),
               v) :: tl)
      else parse_star_log sample_name rest
    | _ => parse_star_log sample_name rest

/-! ### featureCounts output parsing (lines 214-224 of `count_reads_featurecount`) -/

/-- The `for index, line in enumerate(f)` loop over `counts.txt`
(lines 216-224): the first two lines are skipped; each remaining line is
whitespace-tokenized; `line[0]` on an empty token list raises `IndexError`
(the `len(line) == 0` check at line 221-222 only prints); `int(count)`
raises `ValueError` on a non-integer. -/
def fcCountsLoop (sample_name : String) : Nat → List String → Except PyError (List (String × Int))
  | _, [] => .ok []
  | index, line :: rest =>
    if index < 2 then fcCountsLoop sample_name (index + 1) rest
    else
      match pyWsTokens (pyStripWs line.data) with
      | [] => .error .indexError
      | g :: gs =>
        match pyIntL ((g :: gs).getLastD []) with
        | none => .error .valueError
        | some v =>
          (fcCountsLoop sample_name (index + 1) rest).map
            (fun tl => (sample_name ++ "\t" ++ String.mk g, v) :: tl)

/-- The gene-count parsing stage of `count_reads_featurecount` applied to the
lines of `counts.txt`. -/
def parse_featurecount_counts (sample_name : String) (flines : List String) :
    Except PyError (List (String × Int)) :=
  fcCountsLoop sample_name 0 flines

/-! ### Picard metrics file parsing (lines 294-312 of `run_picard`) -/

/-- `dict(zip(header, values))[key]` as an `Option`: truncating zip, later
duplicate keys override earlier ones, absence models `KeyError`. -/
def dictGetStr (pairs : List (String × String)) (key : String) : Option String :=
  (pairs.reverse.find? (fun p => p.1 == key)).map (fun p => p.2)

/-- The `for metric in picard_collected_metrics` loop (lines 306-308):
`metrics[metric]` raises `KeyError` when the allow-listed key is absent from
the parsed header/value mapping; non-empty values go through `int(...)`. -/
def picardExtract (sample_name : String) (metrics : List (String × String)) :
    List String → Except PyError (List (String × Int))
  | [] => .ok []
  | metric :: rest =>
    match dictGetStr metrics metric with
    | none => .error .keyError
    | some v =>
      if v = "" then picardExtract sample_name metrics rest
      else
        match pyInt v with
        | none => .error .valueError
        | some n =>
          (picardExtract sample_name metrics rest).map
            (fun tl => (sample_name ++ "\t" ++ "QC_picard_" ++ metric, n) :: tl)

/-- The `while index < len(picard_lines)` loop (lines 297-310), with a fuel
argument bounding the number of iterations (the loop advances `index` by at
least 1 per iteration, so `picard_lines.length` iterations always suffice).
On a `## METRICS CLASS` marker line, `picard_lines[index + 1]` and
`picard_lines[index + 2]` raise `IndexError` when absent. -/
def picardScanFuel (sample_name : String) (picard_lines : List String) :
    Nat → Nat → List (String × Int) → Except PyError (List (String × Int))
  | 0, _, acc => .ok acc
  | fuel + 1, index, acc =>
    match picard_lines.get? index with
    | none => .ok acc
    | some raw =>
      let current_line := pyStripWs raw.data
      if "##".data.isPrefixOf current_line &&
         "METRICS CLASS".data.isPrefixOf (pyStripWs (current_line.drop 2)) then
        match picard_lines.get? (index + 1), picard_lines.get? (index + 2) with
        | some hline, some vline =>
          let picard_metric_header :=
            (splitOnChar '\t' (lowerL (pyStripWs hline.data))).map String.mk
          let picard_metric_value :=
            (splitOnChar '\t' (pyStripWs vline.data)).map String.mk
          let metrics := picard_metric_header.zip picard_metric_value
          match picardExtract sample_name metrics picard_collected_metrics with
          | .error e => .error e
          | .ok recs => picardScanFuel sample_name picard_lines fuel (index + 3) (acc ++ recs)
        | _, _ => .error .indexError
      else picardScanFuel sample_name picard_lines fuel (index + 1) acc

/-- The metrics-file parsing stage of `run_picard` applied to the lines of
`output.RNA_Metrics`. -/
def parse_picard_metrics (sample_name : String) (picard_lines : List String) :
    Except PyError (List (String × Int)) :=
  picardScanFuel sample_name picard_lines picard_lines.length 0 []

/-! ### HISAT2 command construction (lines 135-151 of `align_reads_hisat`) -/

/-- Python `template.format(*args)` restricted to auto-numbered `\x7b\x7d`
fields: each field consumes the next positional argument; a field with no
argument left raises `IndexError` (exactly what `"-U \x7b\x7d".format()`
does). -/
def pyFormatArgsL (t : List Char) (args : List String) : Except PyError (List Char) :=
  match t, args with
  | [], _ => .ok []
  | '\x7b' :: '\x7d' :: _, [] => .error .indexError
  | '\x7b' :: '\x7d' :: rest, a :: more =>
    (pyFormatArgsL rest more).map (fun r => a.data ++ r)
  | c :: rest, as_ => (pyFormatArgsL rest as_).map (fun r => c :: r)

/-- `template.format(*args)` on `String`. -/
def pyFormat (template : String) (args : List String) : Except PyError String :=
  (pyFormatArgsL template.data args).map String.mk

/-- Lines 137-143: `paired_read = len(file_names) == 2`; paired uses
`"-1 \x7b\x7d -2 \x7b\x7d".format(*file_names)`; otherwise the source calls
`"-U \x7b\x7d".format()` with NO arguments (line 143). -/
def hisat_fastq_file_args ( file_names : List String) : Except PyError String :=
  if file_names.length = 2 then
    pyFormat "-1 \x7b\x7d -2 \x7b\x7d" file_names
  else
    pyFormat "-U \x7b\x7d" []

/-- The full HISAT2 command string of lines 145-151 (the outer template's
named fields are all supplied, so it is plain splicing); construction fails
exactly when `hisat_fastq_file_args` does. -/
def align_reads_hisat_cmd ( file_names : List String)
    (aligner_extra_args output_folder : String) : Except PyError String :=
  match hisat_fastq_file_args file_names with
  | .error e => .error e
  | .ok fastq_file_args =>
    .ok (APPLICATION_FOLDER ++ "/hisat/hisat2 -p 4 --tmo " ++ aligner_extra_args ++
         " -x " ++ (GENOME_REFERENCES_FOLDER ++ "/hisat_index") ++ "/hisat2.index " ++
         fastq_file_args ++ " -S " ++ output_folder ++ "/output.sam")

/-! ### StageOrchestrator: `alignment_count_step` (lines 350-406) -/

/-- The control flow of `alignment_count_step` over the scratch directory.
`fs` is the set (list) of existing scratch directories; `os.mkdir` with its
swallowed exception (lines 361-364) makes the directory idempotently; the
outcomes of the external aligner / counter / picard steps are parameters
(each step either returns records or raises, lines 377-403); the splitter
itself cannot raise.  `shutil.rmtree(alignment_dir, ignore_errors=True)` is
line 405: it is executed only after all steps returned normally — an
exception from any step propagates out of the function before reaching it. -/
def alignment_count_step
    (alignment_dir : String)
    (aligner_result : Except PyError (List (String × Int)))
    (counter_result : Except PyError (List (String × Int) × List (String × Int)))
    (picard_result : Except PyError (List (String × Int)))
    (run_picard : Bool)
    (fs : List String) :
    Except PyError (List (String × Int)) × List String :=
  let fs1 := if fs.contains alignment_dir then fs else alignment_dir :: fs
  match aligner_result with
  | .error e => (.error e, fs1)
  | .ok aligner_qc_output =>
    match counter_result with
    | .error e => (.error e, fs1)
    | .ok (counter_output, counter_qc_output) =>
      if run_picard then
        match picard_result with
        | .error e => (.error e, fs1)
        | .ok picard_qc_output =>
          (.ok (counter_output ++ aligner_qc_output ++ counter_qc_output ++ picard_qc_output),
           fs1.erase alignment_dir)
      else
        (.ok (counter_output ++ aligner_qc_output ++ counter_qc_output),
         fs1.erase alignment_dir)

/-! ### Final matrix split (lines 476-490 of `__main__`) -/

/-- Row ordering used by `sort_index()`: ascending by row key. -/
def rowLe (a b : String × Int) : Prop :=
  a.1 ≤ b.1

instance : DecidableRel rowLe :=
  fun a b => inferInstanceAs (Decidable (a.1 ≤ b.1))

instance : IsTotal (String × Int) rowLe :=
  ⟨fun a b => le_total a.1 b.1⟩

instance : IsTrans (String × Int) rowLe :=
  ⟨fun _ _ _ h1 h2 => le_trans h1 h2⟩

/-- pandas boolean-mask row selection `df[mask]`: keep the rows whose mask
entry is `True`, in order. -/
def maskSelect (rows : List (String × Int)) (mask : List Bool) : List (String × Int) :=
  (rows.zip mask).filterMap (fun p => if p.2 then some p.1 else none)

/-- Lines 476-490: `count_qc_index = [f.startswith("QC_") for f in index]`,
`count_only_index = [not x for x in count_qc_index]`, the two mask
selections, and `sort_index()` on each; returns
(expression matrix rows, QC report rows). -/
def matrix_outputs (rows : List (String × Int)) :
    List (String × Int) × List (String × Int) :=
  let count_qc_index := rows.map (fun r => r.1.startsWith "QC_")
  let count_only_index := count_qc_index.map (fun x => !x)
  let count_only_summary := List.insertionSort rowLe (maskSelect rows count_only_index)
  let count_qc_summary := List.insertionSort rowLe (maskSelect rows count_qc_index)
  (count_only_summary, count_qc_summary)

/-! ## Helper lemmas about the string primitives -/

theorem splitOnPred_ne_nil (p : Char → Bool) (l : List Char) : splitOnPred p l ≠ [] := by
  cases l with
  | nil => simp [splitOnPred]
  | cons x xs =>
    simp only [splitOnPred]
    split
    · simp
    · split <;> simp

theorem splitOnPred_cons_pos (p : Char → Bool) (x : Char) (xs : List Char) (hx : p x = true) :
    splitOnPred p (x :: xs) = [] :: splitOnPred p xs := by
  cases h : splitOnPred p xs with
  | nil => exact absurd h (splitOnPred_ne_nil p xs)
  | cons h1 t =>
    unfold splitOnPred
    rw [h]
    simp [hx]

theorem splitOnPred_cons_neg (p : Char → Bool) (x : Char) (xs : List Char) (hx : p x = false) :
    ∃ h1 t, splitOnPred p xs = h1 :: t ∧ splitOnPred p (x :: xs) = (x :: h1) :: t := by
  cases h : splitOnPred p xs with
  | nil => exact absurd h (splitOnPred_ne_nil p xs)
  | cons h1 t =>
    refine ⟨h1, t, rfl, ?_⟩
    unfold splitOnPred
    rw [h]
    simp [hx]

theorem splitOnPred_eq_single (p : Char → Bool) (l : List Char)
    (h : ∀ x ∈ l, p x = false) : splitOnPred p l = [l] := by
  induction l with
  | nil => rfl
  | cons x xs ih =>
    obtain ⟨h1, t, hxs, hc⟩ := splitOnPred_cons_neg p x xs (h x (by simp))
    have h2 : splitOnPred p xs = [xs] := ih (fun y hy => h y (by simp [hy]))
    rw [h2] at hxs
    cases hxs
    exact hc

theorem splitOnPred_headD (p : Char → Bool) (l : List Char) :
    (splitOnPred p l).headD [] = l.takeWhile (fun x => !(p x)) := by
  induction l with
  | nil => rfl
  | cons x xs ih =>
    cases hx : p x with
    | true =>
      rw [splitOnPred_cons_pos p x xs hx]
      simp [List.takeWhile_cons, hx]
    | false =>
      obtain ⟨h1, t, hxs, hc⟩ := splitOnPred_cons_neg p x xs hx
      rw [hc]
      simp only [List.headD_cons, List.takeWhile_cons, hx]
      simp only [Bool.not_false, if_true]
      rw [← ih, hxs]
      rfl

theorem splitOnPred_length (p : Char → Bool) (l : List Char) :
    (splitOnPred p l).length = l.countP p + 1 := by
  induction l with
  | nil => rfl
  | cons x xs ih =>
    cases hx : p x with
    | true =>
      rw [splitOnPred_cons_pos p x xs hx, List.length_cons, ih,
        List.countP_cons_of_pos p xs hx]
    | false =>
      obtain ⟨h1, t, hxs, hc⟩ := splitOnPred_cons_neg p x xs hx
      rw [hc, List.length_cons, List.countP_cons_of_neg p xs (by simp [hx])]
      have h3 := ih
      rw [hxs, List.length_cons] at h3
      omega

theorem splitOnPred_getLastD_append (p : Char → Bool) (a b : List Char)
    (hb : ∀ x ∈ b, p x = false) :
    (splitOnPred p (a ++ b)).getLastD [] = (splitOnPred p a).getLastD [] ++ b := by
  induction a with
  | nil =>
    rw [List.nil_append, splitOnPred_eq_single p b hb]
    rfl
  | cons x xs ih =>
    cases hx : p x with
    | true =>
      rw [List.cons_append, splitOnPred_cons_pos p x _ hx, splitOnPred_cons_pos p x xs hx]
      simp only [List.getLastD_cons]
      exact ih
    | false =>
      obtain ⟨h1, t, hxs, hc1⟩ := splitOnPred_cons_neg p x (xs ++ b) hx
      obtain ⟨h2, t2, hxs2, hc2⟩ := splitOnPred_cons_neg p x xs hx
      rw [List.cons_append, hc1, hc2]
      have hcb : b.countP p = 0 := List.countP_eq_zero.mpr (by
        intro y hy
        simp [hb y hy])
      have hlen1 := splitOnPred_length p (xs ++ b)
      have hlen2 := splitOnPred_length p xs
      rw [hxs] at hlen1
      rw [hxs2] at hlen2
      rw [List.countP_append, hcb] at hlen1
      cases t with
      | nil =>
        have hxs0 : xs.countP p = 0 := by
          simp only [List.length_cons, List.length_nil] at hlen1
          omega
        have ht2 : t2 = [] := by
          rw [hxs0] at hlen2
          simp only [List.length_cons] at hlen2
          have h0 : t2.length = 0 := by omega
          exact List.length_eq_zero.mp h0
        subst ht2
        have key := ih
        rw [hxs, hxs2] at key
        simp only [List.getLastD_cons, List.getLastD_nil] at key ⊢
        rw [key]
        rfl
      | cons u us =>
        have ht2 : t2 ≠ [] := by
          intro hcon
          subst hcon
          simp only [List.length_cons, List.length_nil] at hlen1 hlen2
          omega
        cases t2 with
        | nil => exact absurd rfl ht2
        | cons v vs =>
          have key := ih
          rw [hxs, hxs2] at key
          simp only [List.getLastD_cons] at key ⊢
          exact key

theorem takeWhile_append_of_break (p : Char → Bool) (a b : List Char)
    (ha : ∃ x ∈ a, p x = false) :
    (a ++ b).takeWhile p = a.takeWhile p := by
  induction a with
  | nil =>
    obtain ⟨x, hx, _⟩ := ha
    exact absurd hx (List.not_mem_nil x)
  | cons y ys ih =>
    cases hy : p y with
    | false =>
      simp [List.takeWhile_cons, hy]
    | true =>
      have ha2 : ∃ x ∈ ys, p x = false := by
        obtain ⟨x, hx, hpx⟩ := ha
        rcases List.mem_cons.mp hx with h | h
        · subst h; rw [hy] at hpx; exact absurd hpx (by simp)
        · exact ⟨x, h, hpx⟩
      simp [List.takeWhile_cons, hy, ih ha2]

/-- The reduction value of a tree of `sum_gene_counts` applications is the sum
of its leaves. -/
theorem ReduceTree.reduceVal_eq_sum (t : ReduceTree) : t.reduceVal = t.leaves.sum := by
  induction t with
  | leaf v => simp [ReduceTree.reduceVal, ReduceTree.leaves]
  | node l r ihl ihr =>
    simp [ReduceTree.reduceVal, ReduceTree.leaves, sum_gene_counts, ihl, ihr]

/-- After the first iteration (counter at least 1), `splitStep` never changes
the paired flag. -/
theorem splitStep_paired_of_pos (n : Nat) (l : List Char) (st : SplitState)
    (hn : (n == 0) = false) : (splitStep n l st).paired = st.paired := by
  simp only [splitStep, hn, Bool.false_and, Bool.false_eq_true, if_false]
  split
  · split
    · rfl
    · rfl
  · rfl

/-- The fold started at a positive counter never changes the paired flag. -/
theorem splitFold_paired_of_pos :
    ∀ (ls : List (List Char)) (n : Nat) (st : SplitState), n ≠ 0 →
      (splitFold n ls st).paired = st.paired := by
  intro ls
  induction ls with
  | nil => intro n st _; rfl
  | cons l ls ih =>
    intro n st hn
    show (splitFold (n + 1) ls (splitStep n l st)).paired = st.paired
    rw [ih (n + 1) _ (by omega), splitStep_paired_of_pos n l st (by simp [hn])]

/-- In paired mode the fold appends, per line with exactly 8 tab fields, the
first four fields to the mate-1 content and the last four to the mate-2
content, and skips every other line. -/
theorem splitFold_paired_out :
    ∀ (ls : List (List Char)) (n : Nat) (o1 o2 : List Char), n ≠ 0 →
      splitFold n ls ⟨true, o1, o2⟩ =
        ⟨true,
         o1 ++ List.flatten ((ls.filter (fun l => (fieldsOf l).length == 8)).map mate1Rec),
         o2 ++ List.flatten ((ls.filter (fun l => (fieldsOf l).length == 8)).map mate2Rec)⟩ := by
  intro ls
  induction ls with
  | nil => intro n o1 o2 _; simp [splitFold]
  | cons l ls ih =>
    intro n o1 o2 hn
    show splitFold (n + 1) ls (splitStep n l ⟨true, o1, o2⟩) = _
    cases hc : ((fieldsOf l).length == 8) with
    | true =>
      have hstep : splitStep n l ⟨true, o1, o2⟩ =
          ⟨true, o1 ++ mate1Rec l, o2 ++ mate2Rec l⟩ := by
        simp [splitStep, hc]
      rw [hstep, ih (n + 1) _ _ (by omega)]
      simp [List.filter_cons, hc, List.append_assoc]
    | false =>
      have hstep : splitStep n l ⟨true, o1, o2⟩ = ⟨true, o1, o2⟩ := by
        simp [splitStep, hc]
      rw [hstep, ih (n + 1) _ _ (by omega)]
      simp [List.filter_cons, hc]

theorem splitOnChar_ne_nil (c : Char) (l : List Char) : splitOnChar c l ≠ [] :=
  splitOnPred_ne_nil _ l

/-- The paired flag of the whole splitter equals the 8-field test on the
first line of the stripped content. -/
theorem split_interleaved_paired_eq (file_pre file_content output_dir : String) :
    (split_interleaved_file file_pre file_content output_dir).paired_reads =
      (firstLineFieldCount file_content == 8) := by
  cases hl : splitOnChar '\n' (pyStripWs file_content.data) with
  | nil => exact absurd hl (splitOnChar_ne_nil _ _)
  | cons l0 ls =>
    have hfl : firstLineFieldCount file_content = (fieldsOf l0).length := by
      unfold firstLineFieldCount
      rw [hl]
      rfl
    have hmain : (splitFold 0 (splitOnChar '\n' (pyStripWs file_content.data))
        ⟨false, [], []⟩).paired = ((fieldsOf l0).length == 8) := by
      rw [hl]
      show (splitFold 1 ls (splitStep 0 l0 ⟨false, [], []⟩)).paired = _
      rw [splitFold_paired_of_pos ls 1 _ one_ne_zero]
      cases hc : ((fieldsOf l0).length == 8) with
      | true => simp [splitStep, hc]
      | false => simp [splitStep, hc]
    show (splitFold 0 (splitOnChar '\n' (pyStripWs file_content.data))
        ⟨false, [], []⟩).paired = _
    rw [hmain, hfl]

/-! ### Lemmas for the SampleId derivation -/

theorem isPrefixOf_append_self : ∀ (a b : List Char), a.isPrefixOf (a ++ b) = true
  | [], b => by cases b <;> rfl
  | x :: xs, b => by simp [List.isPrefixOf, isPrefixOf_append_self xs b]

theorem isPrefixOf_cons_false (x y : Char) (as bs : List Char) (h : (x == y) = false) :
    (x :: as).isPrefixOf (y :: bs) = false := by
  simp [List.isPrefixOf, h]

/-- A digit character never `==` a non-digit (`'_'`, `'.'`, `'/'`, …). -/
theorem beq_digit_false (d x : Char) (hd : d.isDigit = true) (hx : x.isDigit = false) :
    (d == x) = false := by
  cases hq : (d == x) with
  | false => rfl
  | true =>
    have hdx : d = x := by simpa using hq
    rw [← hdx, hd] at hx
    cases hx

/-- A non-digit character (`'_'`, `'.'`, `'/'`, …) never `==` a digit. -/
theorem digit_beq_false (d x : Char) (hd : d.isDigit = true) (hx : x.isDigit = false) :
    (x == d) = false := by
  cases hq : (x == d) with
  | false => rfl
  | true =>
    have hxd : x = d := by simpa using hq
    rw [hxd, hd] at hx
    cases hx

/-- `"_part"` does not occur in `"_part" ++ N` at any positive offset when
`N` is all digits: the four proper suffixes of `"_part"` start with the wrong
character, and from offset 5 on the remaining text starts with a digit. -/
theorem part_no_occurrence (N : List Char) (hN : ∀ c ∈ N, c.isDigit = true)
    (j : Nat) (hj : 1 ≤ j) :
    "_part".data.isPrefixOf (("_part".data ++ N).drop j) = false := by
  have hrw : "_part".data = ['_', 'p', 'a', 'r', 't'] := rfl
  rw [hrw]
  by_cases h5 : 5 ≤ j
  · have hj5 : j = (['_', 'p', 'a', 'r', 't'] : List Char).length + (j - 5) := by
      simp only [List.length_cons, List.length_nil]
      omega
    rw [hj5, List.drop_append]
    cases hD : N.drop (j - 5) with
    | nil => rfl
    | cons c cs =>
      have hc : c ∈ N := List.drop_subset _ N (hD ▸ List.mem_cons_self c cs)
      exact isPrefixOf_cons_false _ _ _ _ (digit_beq_false c '_' (hN c hc) rfl)
  · have h4 : j ≤ 4 := by omega
    interval_cases j
    · exact rfl
    · exact rfl
    · exact rfl
    · exact rfl

/-- `lastOccurFrom` finds `A` when there is an occurrence at `A` and none
above it (up to the scan start `k`). -/
theorem lastOccurFrom_eq (sub s : List Char) (A : Nat) :
    ∀ k : Nat, A ≤ k → sub.isPrefixOf (s.drop A) = true →
      (∀ j, A < j → j ≤ k → sub.isPrefixOf (s.drop j) = false) →
      lastOccurFrom sub s k = some A
  | 0, hA, hocc, _ => by
    have hA0 : A = 0 := Nat.le_zero.mp hA
    subst hA0
    have hocc0 : sub.isPrefixOf s = true := by simpa using hocc
    simp [lastOccurFrom, hocc0]
  | k + 1, hA, hocc, hno => by
    by_cases hAk : A = k + 1
    · subst hAk
      simp [lastOccurFrom, hocc]
    · have hA2 : A ≤ k := by omega
      have hfalse : sub.isPrefixOf (s.drop (k + 1)) = false := hno (k + 1) (by omega) (le_refl _)
      simp only [lastOccurFrom, hfalse, Bool.false_eq_true, if_false]
      exact lastOccurFrom_eq sub s A k hA2 hocc (fun j h1 h2 => hno j h1 (by omega))

/-- `rsplit("_part", 1)[0]` on `B ++ "_part" ++ N` with `N` all digits
returns `B`: the appended `"_part"` is the last occurrence. -/
theorem rsplitOnceBefore_append_part (B N : List Char) (hN : ∀ c ∈ N, c.isDigit = true) :
    rsplitOnceBefore "_part".data (B ++ ("_part".data ++ N)) = B := by
  have hocc : "_part".data.isPrefixOf
      ((B ++ ("_part".data ++ N)).drop B.length) = true := by
    rw [List.drop_left]
    exact isPrefixOf_append_self _ _
  have hno : ∀ j, B.length < j → j ≤ (B ++ ("_part".data ++ N)).length →
      "_part".data.isPrefixOf ((B ++ ("_part".data ++ N)).drop j) = false := by
    intro j h1 _
    have hj : j = B.length + (j - B.length) := by omega
    rw [hj, List.drop_append]
    exact part_no_occurrence N hN (j - B.length) (by omega)
  have hA : B.length ≤ (B ++ ("_part".data ++ N)).length := by
    rw [List.length_append]
    omega
  unfold rsplitOnceBefore
  rw [lastOccurFrom_eq "_part".data _ B.length _ hA hocc hno]
  exact List.take_left B _

/-- `rstrip(c)` is the identity when the last character is not `c`. -/
theorem rstripChar_eq_self (c : Char) (l : List Char)
    (h : ∀ z, l.getLast? = some z → (z == c) = false) : rstripChar c l = l := by
  unfold rstripChar
  cases hr : l.reverse with
  | nil =>
    rw [List.dropWhile_nil, ← hr, List.reverse_reverse]
  | cons z zs =>
    have hz : l.getLast? = some z := by
      rw [List.getLast?_eq_head?_reverse, hr]
      rfl
    rw [List.dropWhile_cons, h z hz]
    simp only [Bool.false_eq_true, if_false]
    rw [← hr, List.reverse_reverse]

/-! ## Claim theorems -/

/-- C1: the claim says the scratch directory is gone after `alignment_count_step`
on every exit path.  The code contradicts it: `shutil.rmtree` (line 405) is the
last statement of the function and is not in a `finally` block, so when any
step raises (here: the aligner invocation fails), the exception propagates and
the scratch directory survives; it is removed only on the success path. -/
theorem C1_scratch_dir_survives_step_error :
    (alignment_count_step "/mnt/output/alignment_S1_part0"
        (.error .valueError) (.ok ([], [])) (.ok []) false []) =
      (.error PyError.valueError, ["/mnt/output/alignment_S1_part0"])
  ∧ (alignment_count_step "/mnt/output/alignment_S1_part0"
        (.ok []) (.ok ([], [])) (.ok []) false []).2 = [] := by
  exact ⟨rfl, rfl⟩

/-- C2: `sum_gene_counts` sums the Values of records sharing a (SampleId, Key)
pair; it is associative and commutative, so any reduction tree over the same
multiset of values (any order and grouping chosen by the engine) yields the
same result; and the concrete scenario: partitions "S1_part0" and "S1_part1"
both derive SampleId "S1", their counts 5 and 3 for gene "G1" combine to 8,
and the assembled matrix cell (row "G1", column "S1") is 8. -/
theorem C2_combine_assoc_comm_order_independent :
    (∀ a b c : Int,
      sum_gene_counts (sum_gene_counts a b) c = sum_gene_counts a (sum_gene_counts b c))
  ∧ (∀ a b : Int, sum_gene_counts a b = sum_gene_counts b a)
  ∧ (∀ t₁ t₂ : ReduceTree, t₁.leaves.Perm t₂.leaves → t₁.reduceVal = t₂.reduceVal)
  ∧ sampleId "S1_part0" = "S1"
  ∧ sampleId "S1_part1" = "S1"
  ∧ sum_gene_counts 5 3 = 8
  ∧ set_gene_id_as_key ("S1\tG1", sum_gene_counts 5 3) = .ok ("G1", [("S1", 8)])
  ∧ dictGetLast [("S1", 8)] "S1" = some 8 := by
  refine ⟨?_, ?_, ?_, rfl, rfl, rfl, rfl, rfl⟩
  · intro a b c
    simp [sum_gene_counts, Int.add_assoc]
  · intro a b
    simp [sum_gene_counts, Int.add_comm]
  · intro t₁ t₂ h
    rw [ReduceTree.reduceVal_eq_sum, ReduceTree.reduceVal_eq_sum, h.sum_eq]

/-- C5: the claim says malformed parser input (an allow-listed metric key
absent from the parsed picard header/value mapping; an empty line in the
featureCounts primary output) surfaces a distinct typed ParseError.  The code
contradicts it: `metrics[metric]` (line 307) is an unchecked dict lookup that
raises `KeyError`, and `line[0]` (line 223) an unchecked indexing of the empty
token list that raises `IndexError` — the `len(line) == 0` test at line 221
only prints.  Both evaluations below surface the unchecked Python error, not
a typed parse error. -/
theorem C5_parsers_raise_unchecked_errors :
    parse_picard_metrics "S" ["## METRICS CLASS\tjunk", "foo\tbar", "1\t2"] =
      .error PyError.keyError
  ∧ parse_featurecount_counts "S" ["cmd", "hdr", ""] = .error PyError.indexError := by
  exact ⟨rfl, rfl⟩

/-- C6: the claim says HISAT2 command construction succeeds for one and two
input read files.  The code contradicts it for the single-end case: line 143
is `"-U \x7b\x7d".format()` — the placeholder has no argument, so Python
raises `IndexError` before any command is built.  The paired (two-file) case
does build the full command string. -/
theorem C6_hisat_single_end_construction_fails :
    align_reads_hisat_cmd ["a_1.fq"] "" "/out" = .error PyError.indexError
  ∧ align_reads_hisat_cmd ["a_1.fq", "a_2.fq"] "" "/out" =
      .ok "/mnt/app/hisat/hisat2 -p 4 --tmo  -x /mnt/ref/hisat_index/hisat2.index -1 a_1.fq -2 a_2.fq -S /out/output.sam" := by
  exact ⟨rfl, rfl⟩

/-- C9: on empty input content, `split_interleaved_file` still returns (and
creates) the single mate-1 output file, with paired=false; the file receives
one bare newline (the blank pseudo-line of `"".strip().split("\n")`), hence
zero read records: every line of the written content is empty. -/
theorem C9_empty_input_creates_empty_output (file_pre output_dir : String) :
    (split_interleaved_file file_pre "" output_dir).output_file_names =
      [(output_dir ++ "/" ++ file_pre) ++ "_1.fq"]
  ∧ (split_interleaved_file file_pre "" output_dir).paired_reads = false
  ∧ (split_interleaved_file file_pre "" output_dir).file1 = "\n"
  ∧ (split_interleaved_file file_pre "" output_dir).file2 = none
  ∧ nonemptyLineCount (split_interleaved_file file_pre "" output_dir).file1 = 0 := by
  exact ⟨rfl, rfl, rfl, rfl, rfl⟩

/-- C10: the STAR log parser, on the line `| Number of input reads |\t1000000`,
strips the key of `|` and blanks, matches it case-insensitively against the
allow-list, and emits exactly
`(sample\tQC_STAR_Number_of_input_reads, 1000000)` — spaces replaced by
underscores, original capitalization preserved (second conjunct: an
upper-cased key still matches, and its capitalization is kept). -/
theorem C10_star_log_line_parsing :
    parse_star_log "sample" ["| Number of input reads |\t1000000"] =
      .ok [("sample\tQC_STAR_Number_of_input_reads", 1000000)]
  ∧ parse_star_log "sample" ["NUMBER OF INPUT READS\t7"] =
      .ok [("sample\tQC_STAR_NUMBER_OF_INPUT_READS", 7)] := by
  exact ⟨rfl, rfl⟩

/-- C3: `sampleId` is a deterministic function of the partition name (it is a
function), and two partition names that differ only in the digits of a
trailing `_partN` suffix (same stem, same extension — empty or starting with
a dot and containing no slash) map to the same SampleId; in particular
`sampleId "S1_part0.txt" = sampleId "S1_part1.txt" = "S1"`. -/
theorem C3_sampleId_strips_partition_suffix (stem ext : String) (N1 N2 : List Char)
    (hN1 : ∀ c ∈ N1, c.isDigit = true) (hN2 : ∀ c ∈ N2, c.isDigit = true)
    (hext : ext.data = [] ∨ ∃ e, ext.data = '.' :: e)
    (hslash : '/' ∉ ext.data) :
    sampleId (String.mk (stem.data ++ "_part".data ++ N1 ++ ext.data)) =
      sampleId (String.mk (stem.data ++ "_part".data ++ N2 ++ ext.data))
  ∧ sampleId "S1_part0.txt" = "S1"
  ∧ sampleId "S1_part1.txt" = "S1" := by
  refine ⟨?_, rfl, rfl⟩
  have key : ∀ N : List Char, (∀ c ∈ N, c.isDigit = true) →
      sampleIdL (stem.data ++ "_part".data ++ N ++ ext.data) =
      (if ((splitOnPred (fun x => x == '/') stem.data).getLastD []).any
          (fun x => x == '.') then
        rsplitOnceBefore "_part".data
          (((splitOnPred (fun x => x == '/') stem.data).getLastD []).takeWhile
            (fun x => !(x == '.')))
      else (splitOnPred (fun x => x == '/') stem.data).getLastD []) := by
    intro N hN
    have hassoc : stem.data ++ "_part".data ++ N ++ ext.data =
        stem.data ++ ("_part".data ++ (N ++ ext.data)) := by
      simp [List.append_assoc]
    -- Step 1: rstrip("/") is the identity: the name ends in the extension,
    -- the digits of N, or the 't' of "_part" — never in '/'.
    have hlast : ∀ z, (stem.data ++ "_part".data ++ N ++ ext.data).getLast? = some z →
        (z == '/') = false := by
      intro z hz
      simp only [List.getLast?_append] at hz
      rw [show "_part".data.getLast? = some 't' from rfl] at hz
      cases hE : ext.data.getLast? with
      | some w =>
        rw [hE, Option.or_some] at hz
        have hwz : w = z := by simpa using hz
        have hw : z ∈ ext.data := hwz ▸ List.mem_of_getLast?_eq_some hE
        have hzs : z ≠ '/' := fun hcon => hslash (hcon ▸ hw)
        exact beq_eq_false_iff_ne.mpr hzs
      | none =>
        rw [hE, Option.none_or] at hz
        cases hNl : N.getLast? with
        | some v =>
          rw [hNl, Option.or_some] at hz
          have hvz : v = z := by simpa using hz
          have hv : z ∈ N := hvz ▸ List.mem_of_getLast?_eq_some hNl
          exact beq_digit_false z '/' (hN z hv) rfl
        | none =>
          rw [hNl, Option.none_or, Option.or_some] at hz
          have hzt : z = 't' := by
            have := hz
            simpa using this.symm
          rw [hzt]
          rfl
    have hA : rstripChar '/' (stem.data ++ "_part".data ++ N ++ ext.data) =
        stem.data ++ "_part".data ++ N ++ ext.data :=
      rstripChar_eq_self '/' _ hlast
    -- Step 2: basename: everything after stem contains no '/'.
    have hb : ∀ x ∈ "_part".data ++ (N ++ ext.data), (x == '/') = false := by
      intro x hx
      rcases List.mem_append.mp hx with hx | hx
      · rw [show "_part".data = ['_', 'p', 'a', 'r', 't'] from rfl] at hx
        fin_cases hx <;> rfl
      · rcases List.mem_append.mp hx with hx | hx
        · exact beq_digit_false x '/' (hN x hx) rfl
        · exact beq_eq_false_iff_ne.mpr (fun hcon => hslash (hcon ▸ hx))
    have hB : (splitOnPred (fun x => x == '/')
          (stem.data ++ "_part".data ++ N ++ ext.data)).getLastD [] =
        (splitOnPred (fun x => x == '/') stem.data).getLastD [] ++
          ("_part".data ++ (N ++ ext.data)) := by
      rw [hassoc]
      exact splitOnPred_getLastD_append _ stem.data _ hb
    simp only [sampleIdL, splitOnChar]
    rw [hA, hB, splitOnPred_headD]
    -- Step 3: split(".")[0] = takeWhile over basename ++ tail.
    cases hdot : ((splitOnPred (fun x => x == '/') stem.data).getLastD []).any
        (fun x => x == '.') with
    | true =>
      obtain ⟨x, hxB, hx⟩ := List.any_eq_true.mp hdot
      rw [takeWhile_append_of_break _ _ _ ⟨x, hxB, by simp [hx]⟩]
      rw [if_pos rfl]
    | false =>
      have hall := List.any_eq_false.mp hdot
      have hBall : ∀ a ∈ (splitOnPred (fun x => x == '/') stem.data).getLastD [],
          (!(a == '.')) = true := by
        intro a ha
        simp [hall a ha]
      rw [List.takeWhile_append_of_pos hBall]
      have hPall : ∀ a ∈ "_part".data, (!(a == '.')) = true := by
        intro a ha
        rw [show "_part".data = ['_', 'p', 'a', 'r', 't'] from rfl] at ha
        fin_cases ha <;> rfl
      rw [List.takeWhile_append_of_pos hPall]
      have hNall : ∀ a ∈ N, (!(a == '.')) = true := by
        intro a ha
        rw [beq_digit_false a '.' (hN a ha) rfl]
        rfl
      rw [List.takeWhile_append_of_pos hNall]
      have hextTW : ext.data.takeWhile (fun x => !(x == '.')) = [] := by
        rcases hext with hE | ⟨e, hE⟩
        · rw [hE]
          rfl
        · rw [hE]
          rfl
      rw [hextTW, List.append_nil, if_neg (by simp)]
      exact rsplitOnceBefore_append_part _ N hN
  show String.mk (sampleIdL (stem.data ++ "_part".data ++ N1 ++ ext.data)) =
    String.mk (sampleIdL (stem.data ++ "_part".data ++ N2 ++ ext.data))
  rw [key N1 hN1, key N2 hN2]

/-- Witness for C3 at stem "S1", extension ".txt", suffix digits "0" and "1". -/
theorem C3_sampleId_strips_partition_suffix_witness :
    sampleId (String.mk ("S1".data ++ "_part".data ++ ['0'] ++ ".txt".data)) =
      sampleId (String.mk ("S1".data ++ "_part".data ++ ['1'] ++ ".txt".data))
  ∧ sampleId "S1_part0.txt" = "S1"
  ∧ sampleId "S1_part1.txt" = "S1" :=
  C3_sampleId_strips_partition_suffix "S1" ".txt" ['0'] ['1']
    (by decide) (by decide) (Or.inr ⟨"txt".data, rfl⟩) (by decide)

/-- C4: the arity decision of `split_interleaved_file`: 8 tab fields on the
first line of the stripped content (the first non-empty line of the batch)
give exactly two output files and paired=true; any other field count —
including 4 — gives exactly one output file and paired=false. -/
theorem C4_read_splitter_arity (file_pre file_content output_dir : String) :
    (firstLineFieldCount file_content = 8 →
      (split_interleaved_file file_pre file_content output_dir).output_file_names.length = 2 ∧
      (split_interleaved_file file_pre file_content output_dir).paired_reads = true)
  ∧ (firstLineFieldCount file_content ≠ 8 →
      (split_interleaved_file file_pre file_content output_dir).output_file_names.length = 1 ∧
      (split_interleaved_file file_pre file_content output_dir).paired_reads = false) := by
  have hp := split_interleaved_paired_eq file_pre file_content output_dir
  constructor
  · intro h8
    have hpt : (split_interleaved_file file_pre file_content output_dir).paired_reads = true := by
      rw [hp, h8]
      rfl
    refine ⟨?_, hpt⟩
    have hfl : (splitFold 0 (splitOnChar '\n' (pyStripWs file_content.data))
        ⟨false, [], []⟩).paired = true := hpt
    show (if (splitFold 0 (splitOnChar '\n' (pyStripWs file_content.data))
        ⟨false, [], []⟩).paired then
          [(output_dir ++ "/" ++ file_pre) ++ "_1.fq", (output_dir ++ "/" ++ file_pre) ++ "_2.fq"]
        else [(output_dir ++ "/" ++ file_pre) ++ "_1.fq"]).length = 2
    rw [hfl]
    rfl
  · intro h8
    have hpf : (split_interleaved_file file_pre file_content output_dir).paired_reads = false := by
      rw [hp]
      cases hq : (firstLineFieldCount file_content == 8) with
      | false => rfl
      | true => exact absurd (by simpa using hq) h8
    refine ⟨?_, hpf⟩
    have hfl : (splitFold 0 (splitOnChar '\n' (pyStripWs file_content.data))
        ⟨false, [], []⟩).paired = false := hpf
    show (if (splitFold 0 (splitOnChar '\n' (pyStripWs file_content.data))
        ⟨false, [], []⟩).paired then
          [(output_dir ++ "/" ++ file_pre) ++ "_1.fq", (output_dir ++ "/" ++ file_pre) ++ "_2.fq"]
        else [(output_dir ++ "/" ++ file_pre) ++ "_1.fq"]).length = 1
    rw [hfl]
    rfl

/-- C7: in paired mode (first line has 8 tab fields) each line with exactly 8
fields contributes its first four fields, one per line, to the mate-1 file
and its last four to the mate-2 file — both files are the image of the same
kept-line list, so the i-th record of mate-1 corresponds to the i-th record
of mate-2 — and every line with any other field count is skipped with no
record written to either file (the function is total, no error is raised). -/
theorem C7_paired_mode_splitting (file_pre file_content output_dir : String)
    (h8 : firstLineFieldCount file_content = 8) :
    (split_interleaved_file file_pre file_content output_dir).file1 =
      String.mk (List.flatten ((keptLines file_content).map mate1Rec))
  ∧ (split_interleaved_file file_pre file_content output_dir).file2 =
      some (String.mk (List.flatten ((keptLines file_content).map mate2Rec)))
  ∧ ((keptLines file_content).map mate1Rec).length =
      ((keptLines file_content).map mate2Rec).length := by
  cases hl : splitOnChar '\n' (pyStripWs file_content.data) with
  | nil => exact absurd hl (splitOnChar_ne_nil _ _)
  | cons l0 ls =>
    have hfl : (fieldsOf l0).length = 8 := by
      unfold firstLineFieldCount at h8
      rw [hl] at h8
      exact h8
    have hc : ((fieldsOf l0).length == 8) = true := by simp [hfl]
    have hstep : splitStep 0 l0 ⟨false, [], []⟩ = ⟨true, mate1Rec l0, mate2Rec l0⟩ := by
      simp [splitStep, hc]
    have hkept : keptLines file_content =
        l0 :: ls.filter (fun l => (fieldsOf l).length == 8) := by
      unfold keptLines
      rw [hl, List.filter_cons, if_pos hc]
    have hfold : splitFold 0 (splitOnChar '\n' (pyStripWs file_content.data)) ⟨false, [], []⟩ =
        ⟨true,
         List.flatten ((keptLines file_content).map mate1Rec),
         List.flatten ((keptLines file_content).map mate2Rec)⟩ := by
      rw [hl]
      show splitFold 1 ls (splitStep 0 l0 ⟨false, [], []⟩) = _
      rw [hstep, splitFold_paired_out ls 1 _ _ one_ne_zero, hkept]
      simp [List.map_cons, List.flatten_cons]
    refine ⟨?_, ?_, by simp⟩
    · show String.mk (splitFold 0 (splitOnChar '\n' (pyStripWs file_content.data))
          ⟨false, [], []⟩).out1 = _
      rw [hfold]
    · show (if (splitFold 0 (splitOnChar '\n' (pyStripWs file_content.data))
          ⟨false, [], []⟩).paired then
            some (String.mk (splitFold 0 (splitOnChar '\n' (pyStripWs file_content.data))
              ⟨false, [], []⟩).out2) else none) = _
      rw [hfold]
      rfl

/-- Witness for C7 at a concrete paired-end batch with one malformed line. -/
theorem C7_paired_mode_splitting_witness :
    (split_interleaved_file "s" "a\tb\tc\td\te\tf\tg\th\nbad\ni\tj\tk\tl\tm\tn\to\tp" "o").file1 =
      String.mk (List.flatten
        ((keptLines "a\tb\tc\td\te\tf\tg\th\nbad\ni\tj\tk\tl\tm\tn\to\tp").map mate1Rec))
  ∧ (split_interleaved_file "s" "a\tb\tc\td\te\tf\tg\th\nbad\ni\tj\tk\tl\tm\tn\to\tp" "o").file2 =
      some (String.mk (List.flatten
        ((keptLines "a\tb\tc\td\te\tf\tg\th\nbad\ni\tj\tk\tl\tm\tn\to\tp").map mate2Rec)))
  ∧ ((keptLines "a\tb\tc\td\te\tf\tg\th\nbad\ni\tj\tk\tl\tm\tn\to\tp").map mate1Rec).length =
      ((keptLines "a\tb\tc\td\te\tf\tg\th\nbad\ni\tj\tk\tl\tm\tn\to\tp").map mate2Rec).length :=
  C7_paired_mode_splitting "s" "a\tb\tc\td\te\tf\tg\th\nbad\ni\tj\tk\tl\tm\tn\to\tp" "o" rfl

/-- Mask selection with the mask computed pointwise from the rows is a filter. -/
theorem maskSelect_map (f : (String × Int) → Bool) (rows : List (String × Int)) :
    maskSelect rows (rows.map f) = rows.filter f := by
  induction rows with
  | nil => rfl
  | cons r rs ih =>
    have ih2 := ih
    simp only [maskSelect] at ih2 ⊢
    simp only [List.map_cons, List.zip_cons_cons, List.filterMap_cons, List.filter_cons]
    cases hf : f r <;> simp [hf, ih2]

/-- C8: the output rows are partitioned exactly by the `QC_` key test: a row
is in the QC report iff it is an input row whose key starts with `QC_`, in
the expression matrix iff it is an input row whose key does not, and both
outputs are sorted ascending by key. -/
theorem C8_matrix_split_and_sort (rows : List (String × Int)) (r : String × Int) :
    (r ∈ (matrix_outputs rows).1 ↔ r ∈ rows ∧ r.1.startsWith "QC_" = false)
  ∧ (r ∈ (matrix_outputs rows).2 ↔ r ∈ rows ∧ r.1.startsWith "QC_" = true)
  ∧ List.Sorted rowLe (matrix_outputs rows).1
  ∧ List.Sorted rowLe (matrix_outputs rows).2 := by
  have honly : maskSelect rows
      ((rows.map (fun q => q.1.startsWith "QC_")).map (fun x => !x)) =
      rows.filter (fun q => !(q.1.startsWith "QC_")) := by
    rw [List.map_map]
    exact maskSelect_map _ rows
  have hqc : maskSelect rows (rows.map (fun q => q.1.startsWith "QC_")) =
      rows.filter (fun q => q.1.startsWith "QC_") := maskSelect_map _ rows
  refine ⟨?_, ?_, ?_, ?_⟩
  · show r ∈ List.insertionSort rowLe (maskSelect rows
      ((rows.map (fun q => q.1.startsWith "QC_")).map (fun x => !x))) ↔ _
    rw [honly, List.mem_insertionSort, List.mem_filter]
    simp
  · show r ∈ List.insertionSort rowLe
      (maskSelect rows (rows.map (fun q => q.1.startsWith "QC_"))) ↔ _
    rw [hqc, List.mem_insertionSort, List.mem_filter]
  · exact List.sorted_insertionSort rowLe _
  · exact List.sorted_insertionSort rowLe _

end Falco
